import Mathlib

/-!
Shallow embedding of the misskey-aj-filter AI proxy (an Express service that
classifies short text items as keep/hide/rewrite and rewrites flagged text).
Strings are modelled as lists of characters (`JStr`), JavaScript objects used
as result maps as association lists built by `objInsert` (which mirrors the
semantics of repeated `out[id] = v` assignments: keys are unique, a later
assignment overwrites in place).  The external OpenAI completion call and the
JSON parsing of its reply are modelled as oracles, since they sit at the
service boundary.  Each handler is translated from the source file that the
claims cite: `Part004` embeds src/unnamed/part_004, `Part002` embeds
src/unnamed/part_002, `IndexJs` embeds src/index.js.
-/

set_option maxHeartbeats 1000000

abbrev JStr := List Char

/-- Convert a Lean string literal to the character-list model. -/
def js (x : String) : JStr := x.data

/-- JavaScript `\s` / `String.prototype.trim` whitespace, restricted to the
ASCII whitespace characters that occur in this code base's data. -/
def isWs (c : Char) : Bool :=
  c = ' ' || c = '\t' || c = '\n' || c = '\r' || c = '\x0b' || c = '\x0c'

/-- JavaScript `toLowerCase`, restricted to ASCII (the only characters the
source's case-insensitive matching can distinguish; Japanese characters are
unaffected by case mapping). -/
def lowChar (c : Char) : Char :=
  if 'A' ≤ c && c ≤ 'Z' then Char.ofNat (c.toNat + 32) else c

def lowStr (l : JStr) : JStr := l.map lowChar

/-- Prefix test `leadMatch needle hay`: `hay` starts with `needle`. -/
def leadMatch : JStr → JStr → Bool
  | [], _ => true
  | _ :: _, [] => false
  | a :: as, b :: bs => a == b && leadMatch as bs

/-- JavaScript `String.prototype.includes`: substring containment. -/
def isSub (needle : JStr) : JStr → Bool
  | [] => needle.isEmpty
  | c :: rest => leadMatch needle (c :: rest) || isSub needle rest

/-- JavaScript `String.prototype.trim`. -/
def trim (l : JStr) : JStr :=
  ((l.dropWhile isWs).reverse.dropWhile isWs).reverse

/-- The classification verdict strings `"keep" | "hide" | "rewrite"`. -/
inductive Suggest
  | keep
  | hide
  | rewrite
  deriving DecidableEq, Repr

/-- A well-formed input item `{id, text}`. -/
structure Item where
  id : JStr
  text : JStr
  deriving DecidableEq, Repr

/-- Assignment `obj[k] = v` on a JavaScript object modelled as an association list:
overwrites in place when the key exists, appends otherwise. -/
def objInsert {α : Type} (m : List (JStr × α)) (k : JStr) (v : α) : List (JStr × α) :=
  match m with
  | [] => [(k, v)]
  | (k', v') :: rest => if k' = k then (k', v) :: rest else (k', v') :: objInsert rest k v

/-- JavaScript `Object.keys`. -/
def jsKeys {α : Type} (m : List (JStr × α)) : List JStr := m.map Prod.fst

/-- Property lookup with a default (`obj[k]` coerced with `toStr`, which turns
an absent property into `""`). -/
def lookupD {α : Type} (m : List (JStr × α)) (k : JStr) (d : α) : α :=
  match m with
  | [] => d
  | (k', v') :: rest => if k' = k then v' else lookupD rest k d

/-- Coercion `toStr` applied to a possibly-missing string field (`toStr(it?.id)`):
`null`/`undefined` become `""`. -/
def toStrOpt : Option JStr → JStr
  | none => []
  | some t => t

/-- Helper `take(arr, n)` from src/index.js:27: `Array.isArray(arr) ? arr.slice(0,n) : []`.
`none` models a missing or non-array field. -/
def takeJS {α : Type} (o : Option (List α)) (n : Nat) : List α :=
  match o with
  | some l => l.take n
  | none => []

/-- JavaScript `Array.prototype.join(sep)`. -/
def joinSep (sep : JStr) : List JStr → JStr
  | [] => []
  | [p] => p
  | p :: ps => p ++ sep ++ joinSep sep ps

namespace Part004

/-- The character class `[ぁ-んァ-ンｦ-ﾟa-zA-Z0-9]` of the `spamNoise` regex in
src/unnamed/part_004:102. -/
def noiseClass (c : Char) : Bool :=
  ('ぁ' ≤ c && c ≤ 'ん') || ('ァ' ≤ c && c ≤ 'ン') || ('ｦ' ≤ c && c ≤ 'ﾟ') ||
  ('a' ≤ c && c ≤ 'z') || ('A' ≤ c && c ≤ 'Z') || ('0' ≤ c && c ≤ '9')

/-- First alternative of the `spamNoise` regex, `([ぁ-んァ-ンｦ-ﾟa-zA-Z0-9])\1{6,}`
under the `i` flag: some position starts a character of the class followed by
at least six further case-insensitively equal characters (7 repetitions in
total). -/
def hasRepeat7 : JStr → Bool
  | [] => false
  | c :: rest =>
    (noiseClass c && decide (6 ≤ (rest.takeWhile (fun d => lowChar d == lowChar c)).length))
      || hasRepeat7 rest

/-- The character class `[ぁあー]`. -/
def kanaCls (c : Char) : Bool := c = 'ぁ' || c = 'あ' || c = 'ー'

/-- Second alternative of the `spamNoise` regex, `[ぁあー]{6,}`: at least six
consecutive characters drawn from `{ぁ, あ, ー}`. -/
def hasKanaRun6 : JStr → Bool
  | [] => false
  | c :: rest =>
    (kanaCls c && decide (5 ≤ (rest.takeWhile kanaCls).length)) || hasKanaRun6 rest

/-- Test `rx.spamNoise.test(t)` (src/unnamed/part_004:102). -/
def spamNoise (t : JStr) : Bool := hasRepeat7 t || hasKanaRun6 t

/-- Alternatives of the `rx.profanity` regex (src/unnamed/part_004:100). -/
def profanityWords : List JStr :=
  [js "死ね", js "殺す", js "バカ", js "馬鹿", js "アホ", js "クズ", js "カス",
   js "消えろ", js "キモ", js "最悪", js "○ね", js "ぶっ殺", js "fuck", js "shit", js "bitch"]

/-- Alternatives of the `rx.sexual` regex (src/unnamed/part_004:101). -/
def sexualWords : List JStr :=
  [js "セックス", js "sex", js "エロ", js "ちん", js "まん", js "乳", js "レイプ", js "エッチ"]

/-- Test `rx.profanity.test(t)`: case-insensitive alternation of literal words. -/
def profanityRe (t : JStr) : Bool := profanityWords.any (fun p => isSub (lowStr p) (lowStr t))

/-- Test `rx.sexual.test(t)`. -/
def sexualRe (t : JStr) : Bool := sexualWords.any (fun p => isSub (lowStr p) (lowStr t))

/-- Consume `\S+\s*` (at least one non-whitespace character, then trailing
whitespace) at the head of `r`; `none` when no non-whitespace character is
next. -/
def consumeBody (r : JStr) : Option JStr :=
  match r with
  | [] => none
  | c :: _ =>
    if isWs c then none
    else some ((r.dropWhile (fun d => !isWs d)).dropWhile isWs)

/-- Consume the case-insensitive literal `https?:\/\/` at the head of `l`. -/
def stripHttp (l : JStr) : Option JStr :=
  match l with
  | h :: t1 :: t2 :: p :: rest =>
    if lowChar h == 'h' && lowChar t1 == 't' && lowChar t2 == 't' && lowChar p == 'p' then
      match (match rest with
             | c :: r => if lowChar c == 's' then r else rest
             | [] => rest) with
      | ':' :: '/' :: '/' :: r3 => some r3
      | _ => none
    else none
  | _ => none

/-- One unit of the `emptyRp` regex
`(\s*@\S+\s*|[#＃]\S+\s*|https?:\/\/\S+\s*)` matched at the head of `l`
(leading whitespace is only allowed before `@`, exactly as in the pattern).
Since `\S+` may contain any non-whitespace character, the greedy reading is
equivalent to the regex's backtracking semantics. -/
def unitStep (l : JStr) : Option JStr :=
  match l with
  | [] => none
  | c :: rest =>
    if isWs c then
      match (c :: rest).dropWhile isWs with
      | '@' :: r2 => consumeBody r2
      | _ => none
    else if c = '@' then consumeBody rest
    else if c = '#' || c = '＃' then consumeBody rest
    else
      match stripHttp (c :: rest) with
      | some r2 => consumeBody r2
      | none => none

/-- Iterate `unitStep` until the string is consumed.  Each successful unit
consumes at least one character, so `length + 1` fuel always suffices. -/
def unitsLoopF : Nat → JStr → Bool
  | _, [] => true
  | 0, _ => false
  | fuel + 1, l =>
    match unitStep l with
    | some r => unitsLoopF fuel r
    | none => false

/-- Test `rx.emptyRp.test(t)` (src/unnamed/part_004:103): the whole string is one or
more mention/hashtag/URL units. -/
def emptyRp (t : JStr) : Bool := !t.isEmpty && unitsLoopF (t.length + 1) t

/-- The `[...set].map(s=>String(s).toLowerCase()).filter(Boolean)` normalization
of `likeWords`/`dislikeWords` (src/unnamed/part_004:106-107). -/
def normWords (ws : List JStr) : List JStr := (ws.map lowStr).filter (fun w => !w.isEmpty)

/-- The strictness-level dispatch inside `decide`
(src/unnamed/part_004:119-127), with an early `return` modelled as `some`. -/
def levelHit (level : JStr) (hitProf hitSpam hitEmpty : Bool) : Option Suggest :=
  if level = js "strict" then
    if hitProf || hitSpam || hitEmpty then some .hide else none
  else if level = js "moderate" then
    if hitProf || hitEmpty then some .hide
    else if hitSpam then some .rewrite
    else none
  else
    if hitProf then some .hide
    else if hitSpam || hitEmpty then some .rewrite
    else none

/-- Function `decide(text)` from src/unnamed/part_004:109-131 (with the request-level
`likeWords`/`dislikeWords`/`level` closed over as parameters).  Note that the
source merges profanity and sexual hits into one flag `hitProf`. -/
def decide (like dislike : List JStr) (level t : JStr) : Suggest :=
  if (normWords dislike).any (fun w => isSub w (lowStr t)) then .hide
  else
    match levelHit level (profanityRe t || sexualRe t) (spamNoise t) (emptyRp t) with
    | some sug => sug
    | none =>
      if (normWords like).any (fun w => isSub w (lowStr t)) then .rewrite else .keep

end Part004

namespace Part004

/-- First alternative (by pattern order) among `alts` whose non-empty literal
pattern is a prefix of `l`; regex alternation over literals tries alternatives
left to right at each position. -/
def findAlt (alts : List (JStr × JStr)) (l : JStr) : Option (JStr × JStr) :=
  alts.find? (fun pr => !pr.1.isEmpty && leadMatch pr.1 l)

/-- JavaScript `String.prototype.replace(/(p₁|p₂|…)/g, rep)` for literal alternatives:
scan left to right, at each position replace the first matching alternative
and skip it, otherwise keep the character.  Fuelled by the input length (every
match consumes at least one character, so `l.length` fuel is exact). -/
def replaceAltsF (alts : List (JStr × JStr)) : Nat → JStr → JStr
  | _, [] => []
  | 0, l => l
  | fuel + 1, c :: rest =>
    match findAlt alts (c :: rest) with
    | some pr => pr.2 ++ replaceAltsF alts fuel ((c :: rest).drop pr.1.length)
    | none => c :: replaceAltsF alts fuel rest

def replaceAlts (alts : List (JStr × JStr)) (l : JStr) : JStr :=
  replaceAltsF alts l.length l

/-- JavaScript `String.prototype.replace(/\s{2,}/g, " ")`: a run of two or more
whitespace characters becomes one space, a single whitespace character is kept
as-is.  Fuelled by the input length. -/
def collapseWsF : Nat → JStr → JStr
  | _, [] => []
  | 0, l => l
  | fuel + 1, c :: rest =>
    if isWs c then
      (if (rest.takeWhile isWs).isEmpty then [c] else [' ']) ++
        collapseWsF fuel (rest.dropWhile isWs)
    else c :: collapseWsF fuel rest

def collapseWs (l : JStr) : JStr := collapseWsF l.length l

/-- Substitution table of the first `replace` in `soften`
(src/unnamed/part_004:61): `/(死ね|ﾀﾋね)/g → "つらい"`. -/
def softenSubs1 : List (JStr × JStr) := [(js "死ね", js "つらい"), (js "ﾀﾋね", js "つらい")]

/-- Substitution `/(ばか|バカ|馬鹿|アホ|クズ|カス)/g → "よくない"` (src/unnamed/part_004:62). -/
def softenSubs2 : List (JStr × JStr) :=
  [(js "ばか", js "よくない"), (js "バカ", js "よくない"), (js "馬鹿", js "よくない"),
   (js "アホ", js "よくない"), (js "クズ", js "よくない"), (js "カス", js "よくない")]

/-- Substitution `/(ぶっ殺|殺す)/g → "怒ってる"` (src/unnamed/part_004:63). -/
def softenSubs3 : List (JStr × JStr) := [(js "ぶっ殺", js "怒ってる"), (js "殺す", js "怒ってる")]

/-- Function `soften(text)` from src/unnamed/part_004:57-66: `if (!text) return text`,
then three global replacements, whitespace-run collapsing, and `trim`. -/
def soften (text : JStr) : JStr :=
  if text.isEmpty then text
  else trim (collapseWs (replaceAlts softenSubs3 (replaceAlts softenSubs2
    (replaceAlts softenSubs1 text))))

/-- Result of `safeOpenAIChat` (src/unnamed/part_004:29-54): never throws,
returns `{ ok, text }`. -/
structure AIRes where
  ok : Bool
  text : JStr
  deriving DecidableEq, Repr

/-- Wrapper `safeOpenAIChat` as seen by the rewrite loop: with no API key it returns
`{ ok: false, text: last user message }`; with a key the network outcome is
the oracle's value for this item index. -/
def safeChat (key : Bool) (oracle : Nat → AIRes) (i : Nat) (lastUser : JStr) : AIRes :=
  if key then oracle i else ⟨false, lastUser⟩

/-- The local fallback of the rewrite loop (src/unnamed/part_004:168-173):
`style.indexOf("american_joke") >= 0 ? soften(original)+"（※軽変換）" :
soften(original)`. -/
def fallback (style original : JStr) : JStr :=
  if isSub (js "american_joke") style then soften original ++ js "（※軽変換）"
  else soften original

/-- Per-item result of the `/rewrite` loop (src/unnamed/part_004:146-174):
use the trimmed remote text when the call succeeded with non-empty trimmed
content, otherwise the local fallback. -/
def itemResult (key : Bool) (oracle : Nat → AIRes) (style : JStr) (i : Nat)
    (original : JStr) : JStr :=
  if (safeChat key oracle i original).ok
      && !(safeChat key oracle i original).text.isEmpty
      && !(trim (safeChat key oracle i original).text).isEmpty then
    trim (safeChat key oracle i original).text
  else fallback style original

/-- The `/rewrite` handler of src/unnamed/part_004:139-186 under well-formed
items.  The style string is truncated to 200 characters as in the source; the
`catch` branch of the source only fires on malformed (non-object) items, which
are outside the `Item` model, so the handler always produces its results
object. -/
def rewriteHandler (key : Bool) (oracle : Nat → AIRes) (styleIn : JStr)
    (items : List Item) : List (JStr × JStr) :=
  (items.enum).foldl
    (fun out p => objInsert out p.2.id (itemResult key oracle (styleIn.take 200) p.1 p.2.text))
    []

end Part004

namespace Part002

/-- Outcome of one `callOpenAIChat` network attempt in src/unnamed/part_002:
`fail` models a thrown error (non-2xx HTTP status or fetch failure). -/
inductive CallOut
  | ok (text : JStr)
  | fail (msg : JStr)
  deriving DecidableEq, Repr

/-- HTTP-level response of the `/rewrite` handler: `err500` is the
`res.status(500).json({error})` branch. -/
inductive Resp
  | success (results : List (JStr × JStr))
  | err500 (msg : JStr)
  deriving DecidableEq, Repr

/-- The per-item loop of `/rewrite` (src/unnamed/part_002:158-183).  With a
key configured, `callOpenAIChat` is awaited and a thrown error aborts the
whole batch into the `catch` branch (`err500`); without a key the original
text is kept (`meta.used = "none"`).  The stored value is
`(rewritten && rewritten.trim()) ? rewritten.trim() : original`. -/
def loopRw (key : Bool) (oracle : Nat → CallOut) :
    List (Nat × Item) → List (JStr × JStr) → Resp
  | [], out => .success out
  | p :: rest, out =>
    if key then
      match oracle p.1 with
      | .fail m => .err500 m
      | .ok t =>
        loopRw key oracle rest
          (objInsert out p.2.id
            (if !t.isEmpty && !(trim t).isEmpty then trim t else p.2.text))
    else
      loopRw key oracle rest
        (objInsert out p.2.id
          (if !p.2.text.isEmpty && !(trim p.2.text).isEmpty then trim p.2.text else p.2.text))

/-- The `/rewrite` handler of src/unnamed/part_002:144-189 (prompt
construction is boundary data for the external service and does not influence
control flow, so it is not modelled). -/
def rewriteHandler (key : Bool) (oracle : Nat → CallOut) (items : List Item) : Resp :=
  loopRw key oracle items.enum []

end Part002

namespace IndexJs

/-- The persistent learning store `Learn` of src/index.js:30-62 (the token
sets plus the dirty flag; file I/O is at the persistence boundary). -/
structure LearnState where
  like : List JStr
  dislike : List JStr
  dirty : Bool
  deriving DecidableEq, Repr

/-- JavaScript `Set.prototype.add`: insertion-ordered, deduplicating. -/
def setAdd (st : List JStr) (x : JStr) : List JStr := if x ∈ st then st else st ++ [x]

/-- The token loop shared by `addLike`/`addDislike` (src/index.js:58-59):
`const t = toStr(w).trim(); if (t) set.add(t)`. -/
def addTokens (st : List JStr) (arr : List JStr) : List JStr :=
  arr.foldl (fun acc w => if (trim w).isEmpty then acc else setAdd acc (trim w)) st

/-- Method `Learn.addLike` (src/index.js:58). -/
def addLike (st : LearnState) (arr : List JStr) : LearnState :=
  { st with like := addTokens st.like arr, dirty := true }

/-- Method `Learn.addDislike` (src/index.js:59). -/
def addDislike (st : LearnState) (arr : List JStr) : LearnState :=
  { st with dislike := addTokens st.dislike arr, dirty := true }

/-- Method `Learn.export()` (src/index.js:60): both sets as ordered sequences. -/
def exportLearn (st : LearnState) : List JStr × List JStr := (st.like, st.dislike)

/-- The `badHints` lexicon of the `/analyze` handler (src/index.js:153-156). -/
def badHints : List JStr :=
  [js "死ね", js "バカ", js "クソ", js "最悪", js "消えろ", js "ムカつく", js "キモい",
   js "うざい", js "ぶっ殺", js "fuck", js "shit", js "idiot", js "moron", js "kill you"]

/-- The per-item suggestion logic of `/analyze` (src/index.js:145-168):
dislike tokens, then `badHints`, then like tokens.  The `Set` wrappers around
the token lists only deduplicate, which the `any` loops are invariant to, so
the union sets are passed as concatenated lists. -/
def suggestOf (likeAll dislikeAll : List JStr) (text : JStr) : Suggest :=
  if dislikeAll.any (fun w => !w.isEmpty && isSub (lowStr w) (lowStr text)) then .hide
  else if badHints.any (fun w => isSub (lowStr w) (lowStr text)) then .hide
  else if likeAll.any (fun w => !w.isEmpty && isSub (lowStr w) (lowStr text)) then .rewrite
  else .keep

/-- An element of a request's `items` array whose fields may be absent. -/
structure RawItem where
  id : Option JStr
  text : Option JStr
  deriving DecidableEq, Repr

/-- Body of an `/analyze` request (`level` does not exist in this variant).
`items = none` models a missing or non-array `items` field. -/
structure AnalyzeBody where
  items : Option (List RawItem)
  like_tokens : List JStr
  dislike_tokens : List JStr
  deriving Repr

/-- Expression `toStr(it?.id) || ("h" + Math.random().toString(36).slice(2))`
(src/index.js:141); `gen` is the random-suffix source, indexed by item
position. -/
def resolveId (gen : Nat → JStr) (i : Nat) (oid : Option JStr) : JStr :=
  if (toStrOpt oid).isEmpty then js "h" ++ gen i else toStrOpt oid

/-- The `/analyze` handler of src/index.js:128-174: truncate to 50 items,
merge request tokens with the learned sets, classify each item with
`suggestOf`.  The handler performs no writes to the store. -/
def analyzeHandler (learn : LearnState) (gen : Nat → JStr) (body : AnalyzeBody) :
    List (JStr × Suggest) :=
  (takeJS body.items 50).enum.foldl
    (fun out p =>
      objInsert out (resolveId gen p.1 p.2.id)
        (suggestOf (body.like_tokens ++ learn.like) (body.dislike_tokens ++ learn.dislike)
          (toStrOpt p.2.text)))
    []

/-- Outcome of the awaited `callOpenAIChat` of `/rewrite` together with the
subsequent `JSON.parse` of its content (src/index.js:199-221): a thrown call,
an unparsable reply, or a parsed id-to-string object. -/
inductive JSCall
  | threw (msg : JStr)
  | content (parsed : Option (List (JStr × JStr)))

/-- One element of the `joined` prompt:
`` `${toStr(it?.id)}::: ${toStr(it?.text)}`.slice(0, 4000) ``
(src/index.js:186). -/
def mapPart (it : Item) : JStr := (it.id ++ js "::: " ++ it.text).take 4000

/-- Prompt `joined` (src/index.js:185-188): parts joined by blank lines, truncated to
16000 characters.  This string is only the prompt sent to the external
service. -/
def joinedOf (items : List Item) : JStr :=
  (joinSep (js "\n\n") (items.map mapPart)).take 16000

/-- The results object assembled by `/rewrite` after the external call
(src/index.js:208-228): on a thrown call or a parse failure every taken item
maps to its original text, otherwise `results[id] = toStr(parsed[id]) ||
original`. -/
def rwResults (call : JSCall) (items : List Item) : List (JStr × JStr) :=
  match call with
  | .threw _ => items.foldl (fun o it => objInsert o it.id it.text) []
  | .content none => items.foldl (fun o it => objInsert o it.id it.text) []
  | .content (some parsed) =>
    items.foldl
      (fun o it =>
        objInsert o it.id
          (if (lookupD parsed it.id []).isEmpty then it.text else lookupD parsed it.id []))
      []

/-- The `/rewrite` handler of src/index.js:179-233: truncate to 40 items,
return an empty results object when the joined prompt is blank, otherwise
assemble per-item results.  All of its response branches are HTTP 200. -/
def rewriteHandler (call : JSCall) (itemsIn : Option (List Item)) : List (JStr × JStr) :=
  if (trim (joinedOf (takeJS itemsIn 40))).isEmpty then []
  else rwResults call (takeJS itemsIn 40)

end IndexJs

/-- Folding `out[k] = v` assignments over a list of key/value pairs. -/
def foldIns {α : Type} (ps : List (JStr × α)) (acc : List (JStr × α)) : List (JStr × α) :=
  ps.foldl (fun o pr => objInsert o pr.1 pr.2) acc

/-- A 4000-character text (each `joined` part is sliced to 4000 characters). -/
def bigText : JStr := List.replicate 4000 'x'

/-- Five items whose joined prompt exceeds the 16000-character cap: the first
four parts are 4000 characters each, so with the three `"\n\n"` separators the
fifth item's part starts at offset 16008 and is entirely cut off. -/
def capItems : List Item :=
  [⟨js "a", bigText⟩, ⟨js "b", bigText⟩, ⟨js "c", bigText⟩, ⟨js "d", bigText⟩,
   ⟨js "e", js "t"⟩]

section Helpers

variable {α : Type}

theorem jsKeys_cons (p : JStr × α) (tl : List (JStr × α)) :
    jsKeys (p :: tl) = p.1 :: jsKeys tl := rfl

theorem objInsert_nil (k : JStr) (v : α) : objInsert [] k v = [(k, v)] := rfl

theorem objInsert_cons_eq {k k' : JStr} (v v' : α) (tl : List (JStr × α)) (h : k' = k) :
    objInsert ((k', v') :: tl) k v = (k', v) :: tl := by
  simp [objInsert, h]

theorem objInsert_cons_ne {k k' : JStr} (v v' : α) (tl : List (JStr × α)) (h : ¬k' = k) :
    objInsert ((k', v') :: tl) k v = (k', v') :: objInsert tl k v := by
  simp [objInsert, h]

theorem lookupD_nil (k : JStr) (d : α) : lookupD [] k d = d := rfl

theorem lookupD_cons_eq {k k' : JStr} (v' : α) (tl : List (JStr × α)) (d : α) (h : k' = k) :
    lookupD ((k', v') :: tl) k d = v' := by
  simp [lookupD, h]

theorem lookupD_cons_ne {k k' : JStr} (v' : α) (tl : List (JStr × α)) (d : α) (h : ¬k' = k) :
    lookupD ((k', v') :: tl) k d = lookupD tl k d := by
  simp [lookupD, h]

theorem mem_jsKeys_objInsert (m : List (JStr × α)) (k a : JStr) (v : α) :
    a ∈ jsKeys (objInsert m k v) ↔ a ∈ jsKeys m ∨ a = k := by
  induction m with
  | nil => simp [objInsert_nil, jsKeys]
  | cons hd tl ih =>
    obtain ⟨k', v'⟩ := hd
    by_cases h : k' = k
    · rw [objInsert_cons_eq v v' tl h, jsKeys_cons, jsKeys_cons]
      subst h
      simp only [List.mem_cons]
      constructor
      · exact fun h1 => Or.inl h1
      · rintro (h1 | h1)
        · exact h1
        · exact Or.inl h1
    · rw [objInsert_cons_ne v v' tl h, jsKeys_cons, jsKeys_cons]
      simp only [List.mem_cons, ih, or_assoc]

theorem nodup_jsKeys_objInsert (m : List (JStr × α)) (k : JStr) (v : α)
    (h : (jsKeys m).Nodup) : (jsKeys (objInsert m k v)).Nodup := by
  induction m with
  | nil => simp [objInsert_nil, jsKeys]
  | cons hd tl ih =>
    obtain ⟨k', v'⟩ := hd
    rw [jsKeys_cons, List.nodup_cons] at h
    by_cases hk : k' = k
    · rw [objInsert_cons_eq v v' tl hk, jsKeys_cons, List.nodup_cons]
      exact ⟨h.1, h.2⟩
    · rw [objInsert_cons_ne v v' tl hk, jsKeys_cons, List.nodup_cons]
      refine ⟨fun hmem => ?_, ih h.2⟩
      rcases (mem_jsKeys_objInsert tl k k' v).1 hmem with h1 | h1
      · exact h.1 h1
      · exact hk h1

theorem lookupD_objInsert_self (m : List (JStr × α)) (k : JStr) (v : α) (d : α) :
    lookupD (objInsert m k v) k d = v := by
  induction m with
  | nil => rw [objInsert_nil, lookupD_cons_eq _ _ _ rfl]
  | cons hd tl ih =>
    obtain ⟨k', v'⟩ := hd
    by_cases h : k' = k
    · rw [objInsert_cons_eq v v' tl h, lookupD_cons_eq _ _ _ h]
    · rw [objInsert_cons_ne v v' tl h, lookupD_cons_ne _ _ _ h, ih]

theorem lookupD_objInsert_ne (m : List (JStr × α)) (k k' : JStr) (v : α) (d : α)
    (h : k' ≠ k) : lookupD (objInsert m k v) k' d = lookupD m k' d := by
  induction m with
  | nil =>
    rw [objInsert_nil, lookupD_cons_ne _ _ _ (fun he : k = k' => h he.symm)]
  | cons hd tl ih =>
    obtain ⟨k0, v0⟩ := hd
    by_cases h0 : k0 = k
    · rw [objInsert_cons_eq v v0 tl h0,
        lookupD_cons_ne _ _ _ (fun he : k0 = k' => h (he.symm.trans h0)),
        lookupD_cons_ne _ _ _ (fun he : k0 = k' => h (he.symm.trans h0))]
    · by_cases h1 : k0 = k'
      · rw [objInsert_cons_ne v v0 tl h0, lookupD_cons_eq _ _ _ h1, lookupD_cons_eq _ _ _ h1]
      · rw [objInsert_cons_ne v v0 tl h0, lookupD_cons_ne _ _ _ h1, lookupD_cons_ne _ _ _ h1,
          ih]

theorem mem_jsKeys_foldIns (ps : List (JStr × α)) (acc : List (JStr × α)) (a : JStr) :
    a ∈ jsKeys (foldIns ps acc) ↔ a ∈ jsKeys acc ∨ a ∈ ps.map Prod.fst := by
  induction ps generalizing acc with
  | nil => simp [foldIns]
  | cons hd tl ih =>
    simp only [foldIns, List.foldl_cons, List.map_cons, List.mem_cons]
    rw [show (List.foldl (fun o pr => objInsert o pr.1 pr.2) (objInsert acc hd.1 hd.2) tl)
        = foldIns tl (objInsert acc hd.1 hd.2) from rfl] at *
    rw [ih, mem_jsKeys_objInsert]
    tauto

theorem nodup_jsKeys_foldIns (ps : List (JStr × α)) (acc : List (JStr × α))
    (h : (jsKeys acc).Nodup) : (jsKeys (foldIns ps acc)).Nodup := by
  induction ps generalizing acc with
  | nil => simpa [foldIns]
  | cons hd tl ih =>
    exact ih (objInsert acc hd.1 hd.2) (nodup_jsKeys_objInsert acc hd.1 hd.2 h)

theorem lookupD_foldIns_of_not_mem (ps : List (JStr × α)) (acc : List (JStr × α))
    (k : JStr) (d : α) (h : k ∉ ps.map Prod.fst) :
    lookupD (foldIns ps acc) k d = lookupD acc k d := by
  induction ps generalizing acc with
  | nil => simp [foldIns]
  | cons hd tl ih =>
    simp only [List.map_cons, List.mem_cons, not_or] at h
    rw [show foldIns (hd :: tl) acc = foldIns tl (objInsert acc hd.1 hd.2) from rfl,
      ih _ h.2, lookupD_objInsert_ne _ _ _ _ _ h.1]

theorem lookupD_foldIns_mem (ps : List (JStr × α)) (acc : List (JStr × α))
    (k : JStr) (v : α) (d : α) (hnd : (ps.map Prod.fst).Nodup) (hmem : (k, v) ∈ ps) :
    lookupD (foldIns ps acc) k d = v := by
  induction ps generalizing acc with
  | nil => simp at hmem
  | cons hd tl ih =>
    simp only [List.map_cons, List.nodup_cons] at hnd
    rw [show foldIns (hd :: tl) acc = foldIns tl (objInsert acc hd.1 hd.2) from rfl]
    rcases List.mem_cons.1 hmem with he | htl
    · have hk : hd.1 = k := by rw [← he]
      have hknot : k ∉ tl.map Prod.fst := hk ▸ hnd.1
      rw [lookupD_foldIns_of_not_mem _ _ _ _ hknot, hk, ← he, lookupD_objInsert_self]
    · exact ih _ hnd.2 htl

theorem foldl_objInsert_eq_foldIns {γ : Type} (f : γ → JStr) (g : γ → α)
    (l : List γ) (acc : List (JStr × α)) :
    l.foldl (fun o p => objInsert o (f p) (g p)) acc
      = foldIns (l.map (fun p => (f p, g p))) acc := by
  induction l generalizing acc with
  | nil => simp [foldIns]
  | cons hd tl ih => simp [foldIns, List.foldl_cons, ih]

theorem mem_enumFrom_of_mem {β : Type} {a : β} {l : List β} (h : a ∈ l) (n : Nat) :
    ∃ i, (i, a) ∈ List.enumFrom n l := by
  induction l generalizing n with
  | nil => simp at h
  | cons hd tl ih =>
    rcases List.mem_cons.1 h with he | htl
    · exact ⟨n, by simp [List.enumFrom, he]⟩
    · obtain ⟨i, hi⟩ := ih htl (n + 1)
      exact ⟨i, by simp [List.enumFrom, Or.inr hi]⟩

theorem mem_dropWhile_of_neg {β : Type} {p : β → Bool} {c : β} {l : List β}
    (hc : c ∈ l) (hp : p c = false) : c ∈ l.dropWhile p := by
  have hsplit := List.takeWhile_append_dropWhile (p := p) (l := l)
  rcases List.mem_append.1 (by rw [hsplit]; exact hc) with h1 | h1
  · exact absurd (List.mem_takeWhile_imp h1) (by simp [hp])
  · exact h1

theorem trim_eq_nil_iff (l : JStr) : trim l = [] ↔ ∀ c ∈ l, isWs c = true := by
  constructor
  · intro h c hc
    by_contra hws
    have hws' : isWs c = false := by simpa using hws
    have h1 : c ∈ l.dropWhile isWs := mem_dropWhile_of_neg hc hws'
    have h2 : c ∈ (l.dropWhile isWs).reverse := by simpa using h1
    have h3 : c ∈ (l.dropWhile isWs).reverse.dropWhile isWs := mem_dropWhile_of_neg h2 hws'
    rw [trim, List.reverse_eq_nil_iff] at h
    simp [h] at h3
  · intro h
    have h1 : l.dropWhile isWs = [] := List.dropWhile_eq_nil_iff.2 h
    simp [trim, h1]

theorem trim_ne_nil {l : JStr} {c : Char} (hc : c ∈ l) (hws : isWs c = false) :
    trim l ≠ [] := by
  intro h
  have := (trim_eq_nil_iff l).1 h c hc
  rw [hws] at this
  exact Bool.false_ne_true this

theorem replaceAltsF_nonws (alts : List (JStr × JStr))
    (hrep : ∀ pr ∈ alts, ∃ c ∈ pr.2, isWs c = false) :
    ∀ (fuel : Nat) (l : JStr) (c : Char), c ∈ l → isWs c = false →
      ∃ c' ∈ Part004.replaceAltsF alts fuel l, isWs c' = false := by
  intro fuel
  induction fuel with
  | zero =>
    intro l c hc hws
    cases l with
    | nil => simp at hc
    | cons a rest => exact ⟨c, by simpa [Part004.replaceAltsF] using hc, hws⟩
  | succ fuel ih =>
    intro l c hc hws
    cases l with
    | nil => simp at hc
    | cons a rest =>
      cases hfind : Part004.findAlt alts (a :: rest) with
      | some pr =>
        have hfind' : alts.find? (fun pr => !pr.1.isEmpty && leadMatch pr.1 (a :: rest))
            = some pr := hfind
        obtain ⟨c', hc', hw'⟩ := hrep pr (List.mem_of_find?_eq_some hfind')
        refine ⟨c', ?_, hw'⟩
        simp only [Part004.replaceAltsF, hfind]
        exact List.mem_append_left _ hc'
      | none =>
        rcases List.mem_cons.1 hc with he | htl
        · refine ⟨c, ?_, hws⟩
          simp only [Part004.replaceAltsF, hfind]
          exact List.mem_cons.2 (Or.inl he)
        · obtain ⟨c', hc', hw'⟩ := ih rest c htl hws
          refine ⟨c', ?_, hw'⟩
          simp only [Part004.replaceAltsF, hfind]
          exact List.mem_cons.2 (Or.inr hc')

theorem collapseWsF_nonws :
    ∀ (fuel : Nat) (l : JStr) (c : Char), c ∈ l → isWs c = false →
      ∃ c' ∈ Part004.collapseWsF fuel l, isWs c' = false := by
  intro fuel
  induction fuel with
  | zero =>
    intro l c hc hws
    cases l with
    | nil => simp at hc
    | cons a rest => exact ⟨c, by simpa [Part004.collapseWsF] using hc, hws⟩
  | succ fuel ih =>
    intro l c hc hws
    cases l with
    | nil => simp at hc
    | cons a rest =>
      cases ha : isWs a with
      | true =>
        have hcr : c ∈ rest := by
          rcases List.mem_cons.1 hc with he | htl
          · rw [he] at hws; rw [hws] at ha; exact absurd ha (by simp)
          · exact htl
        obtain ⟨c', hc', hw'⟩ :=
          ih (rest.dropWhile isWs) c (mem_dropWhile_of_neg hcr hws) hws
        refine ⟨c', ?_, hw'⟩
        simp only [Part004.collapseWsF, ha, if_true]
        exact List.mem_append_right _ hc'
      | false =>
        rcases List.mem_cons.1 hc with he | htl
        · refine ⟨c, ?_, hws⟩
          simp only [Part004.collapseWsF, ha, Bool.false_eq_true, if_false]
          exact List.mem_cons.2 (Or.inl he)
        · obtain ⟨c', hc', hw'⟩ := ih rest c htl hws
          refine ⟨c', ?_, hw'⟩
          simp only [Part004.collapseWsF, ha, Bool.false_eq_true, if_false]
          exact List.mem_cons.2 (Or.inr hc')

/-- All three `soften` substitution tables replace by phrases that contain a
non-whitespace character. -/
theorem softenSubs_nonws :
    (∀ pr ∈ Part004.softenSubs1, ∃ c ∈ pr.2, isWs c = false) ∧
    (∀ pr ∈ Part004.softenSubs2, ∃ c ∈ pr.2, isWs c = false) ∧
    (∀ pr ∈ Part004.softenSubs3, ∃ c ∈ pr.2, isWs c = false) := by
  decide

/-- If the input contains a non-whitespace character, `soften` cannot return
the empty string: the substitution passes preserve some non-whitespace
character and `trim` keeps it. -/
theorem soften_ne_nil {l : JStr} {c : Char} (hc : c ∈ l) (hws : isWs c = false) :
    Part004.soften l ≠ [] := by
  have hne : l ≠ [] := fun h => by simp [h] at hc
  obtain ⟨c1, hc1, hw1⟩ := replaceAltsF_nonws _ softenSubs_nonws.1 l.length l c hc hws
  obtain ⟨c2, hc2, hw2⟩ :=
    replaceAltsF_nonws _ softenSubs_nonws.2.1 _ _ c1 hc1 hw1
  obtain ⟨c3, hc3, hw3⟩ :=
    replaceAltsF_nonws _ softenSubs_nonws.2.2 _ _ c2 hc2 hw2
  obtain ⟨c4, hc4, hw4⟩ := collapseWsF_nonws _ _ c3 hc3 hw3
  have hempty : l.isEmpty = false := by simpa using hne
  simp only [Part004.soften, hempty, Bool.false_eq_true, if_false]
  exact trim_ne_nil hc4 hw4

end Helpers


/-- C1 (counterexample): as stated the claim is false for the empty token.
Every lowercased text contains the empty string as a substring, and the empty
string can be supplied in the request's `dislike_tokens`, yet both classifiers
skip falsy/empty tokens (`filter(Boolean)` in part_004:107, `if (w && …)` in
index.js:149), so the item is kept, not hidden. -/
theorem c1_empty_token_cex :
    (js "") ∈ [js ""] ∧
    isSub (lowStr (js "")) (lowStr (js "hello")) = true ∧
    Part004.decide [] [js ""] (js "moderate") (js "hello") = .keep ∧
    IndexJs.suggestOf [] [js ""] (js "hello") = .keep := by
  decide

/-- C1 (amended): for every *non-empty* token of the dislike set (the union of
request-supplied and learned tokens is what both handlers pass in), a
case-insensitive substring hit forces `hide`, before any heuristic or
like-token check and for every strictness level. -/
theorem c1_dislike_union_hide (level : JStr) (like dislike likeA dA : List JStr)
    (t w : JStr) (hw : w ∈ dislike) (hwA : w ∈ dA) (hne : w ≠ [])
    (hsub : isSub (lowStr w) (lowStr t) = true) :
    Part004.decide like dislike level t = .hide ∧
    IndexJs.suggestOf likeA dA t = .hide := by
  constructor
  · have hlne : lowStr w ≠ [] := fun h => hne (by simpa [lowStr] using h)
    have hmem : lowStr w ∈ Part004.normWords dislike := by
      simp only [Part004.normWords, List.mem_filter, List.mem_map]
      exact ⟨⟨w, hw, rfl⟩, by simpa using hlne⟩
    have hany : (Part004.normWords dislike).any (fun w' => isSub w' (lowStr t)) = true :=
      List.any_eq_true.2 ⟨lowStr w, hmem, hsub⟩
    simp [Part004.decide, hany]
  · have hany : dA.any (fun w' => !w'.isEmpty && isSub (lowStr w') (lowStr t)) = true :=
      List.any_eq_true.2 ⟨w, hwA, by simp [hsub, hne]⟩
    simp [IndexJs.suggestOf, hany]

/-- C1 (witness): the learned token "うざい" hides a matching item under every
level and in both handlers. -/
theorem c1_dislike_union_hide_witness :
    Part004.decide [] [js "うざい"] (js "relaxed") (js "それはうざいですね") = .hide ∧
    IndexJs.suggestOf [] [js "うざい"] (js "それはうざいですね") = .hide :=
  c1_dislike_union_hide (js "relaxed") [] [js "うざい"] [] [js "うざい"]
    (js "それはうざいですね") (js "うざい") (by decide) (by decide) (by decide) (by decide)

/-- C4: strictness is monotone: a text hidden under `relaxed` is hidden under
`moderate`, and a text hidden under `moderate` is hidden under `strict`, for
every text and preference sets. -/
theorem c4_strictness_monotone (like dislike : List JStr) (t : JStr) :
    (Part004.decide like dislike (js "relaxed") t = .hide →
      Part004.decide like dislike (js "moderate") t = .hide) ∧
    (Part004.decide like dislike (js "moderate") t = .hide →
      Part004.decide like dislike (js "strict") t = .hide) := by
  have hrs : ¬(js "relaxed" = js "strict") := by decide
  have hrm : ¬(js "relaxed" = js "moderate") := by decide
  have hms : ¬(js "moderate" = js "strict") := by decide
  cases hd : (Part004.normWords dislike).any (fun w => isSub w (lowStr t)) with
  | true => simp [Part004.decide, hd]
  | false =>
    cases hp : (Part004.profanityRe t || Part004.sexualRe t) <;>
      cases hs : Part004.spamNoise t <;>
        cases he : Part004.emptyRp t <;>
          simp [Part004.decide, Part004.levelHit, hd, hp, hs, he, hrs, hrm, hms]

/-- C4 (witness): "死ね" is hidden under `relaxed`, hence under `moderate`
(and the text is indeed hidden under `relaxed`). -/
theorem c4_strictness_monotone_witness :
    Part004.decide [] [] (js "relaxed") (js "死ね") = .hide ∧
    Part004.decide [] [] (js "moderate") (js "死ね") = .hide :=
  ⟨by decide, (c4_strictness_monotone [] [] (js "死ね")).1 (by decide)⟩

/-- C5 (counterexample): the noise heuristic does not require a character
repeated at least 7 times: the second regex alternative `[ぁあー]{6,}` fires
on six characters.  "ああああああ" has length 6 (so no 7-fold repetition is
even possible), triggers `spamNoise` alone, and is hidden under `strict`. -/
theorem c5_kana_run_cex :
    (js "ああああああ").length = 6 ∧
    Part004.hasRepeat7 (js "ああああああ") = false ∧
    Part004.spamNoise (js "ああああああ") = true ∧
    Part004.profanityRe (js "ああああああ") = false ∧
    Part004.sexualRe (js "ああああああ") = false ∧
    Part004.emptyRp (js "ああああああ") = false ∧
    Part004.decide [] [] (js "strict") (js "ああああああ") = .hide := by
  decide

/-- C5 (amended): for every item without a dislike hit, the per-level mapping
of heuristic hits to actions follows the table (strict: any hit → hide;
moderate: profanity/sexual/empty-reply → hide, noise alone → rewrite;
relaxed: profanity/sexual → hide, noise or empty-reply → rewrite), where the
noise pattern is a class character repeated at least 7 times *or* a run of at
least 6 characters from `{ぁ, あ, ー}`. -/
theorem c5_heuristic_table (like dislike : List JStr) (t : JStr)
    (hnd : (Part004.normWords dislike).any (fun w => isSub w (lowStr t)) = false) :
    ((Part004.profanityRe t || Part004.sexualRe t || Part004.spamNoise t
        || Part004.emptyRp t) = true →
      Part004.decide like dislike (js "strict") t = .hide) ∧
    ((Part004.profanityRe t || Part004.sexualRe t || Part004.emptyRp t) = true →
      Part004.decide like dislike (js "moderate") t = .hide) ∧
    (Part004.spamNoise t = true → Part004.profanityRe t = false →
      Part004.sexualRe t = false → Part004.emptyRp t = false →
      Part004.decide like dislike (js "moderate") t = .rewrite) ∧
    ((Part004.profanityRe t || Part004.sexualRe t) = true →
      Part004.decide like dislike (js "relaxed") t = .hide) ∧
    ((Part004.spamNoise t || Part004.emptyRp t) = true →
      Part004.profanityRe t = false → Part004.sexualRe t = false →
      Part004.decide like dislike (js "relaxed") t = .rewrite) := by
  have hrs : ¬(js "relaxed" = js "strict") := by decide
  have hrm : ¬(js "relaxed" = js "moderate") := by decide
  have hms : ¬(js "moderate" = js "strict") := by decide
  cases hp : Part004.profanityRe t <;>
    cases hx : Part004.sexualRe t <;>
      cases hs : Part004.spamNoise t <;>
        cases he : Part004.emptyRp t <;>
          simp [Part004.decide, Part004.levelHit, hnd, hp, hx, hs, he, hrs, hrm, hms]

/-- C5 (witness): "wwwwwww" (a class character repeated 7 times) is a pure
noise hit: hidden under `strict` while `moderate` rewrites it. -/
theorem c5_heuristic_table_witness :
    Part004.decide [] [] (js "strict") (js "wwwwwww") = .hide ∧
    Part004.decide [] [] (js "moderate") (js "wwwwwww") = .rewrite :=
  ⟨(c5_heuristic_table [] [] (js "wwwwwww") (by decide)).1 (by decide),
   (c5_heuristic_table [] [] (js "wwwwwww") (by decide)).2.2.1 (by decide) (by decide)
     (by decide) (by decide)⟩

/-- C7 (counterexample): `soften` of part_004 maps the non-empty input `" "`
to the empty string (the `\s{2,}`-collapse plus `trim()` erase whitespace-only
text), contradicting "returns a non-empty string whenever its input is
non-empty". -/
theorem c7_whitespace_cex :
    js " " ≠ [] ∧ Part004.soften (js " ") = [] := by
  decide

/-- C7 (amended): `soften` returns the empty string on empty input, and a
non-empty string on any input containing a non-whitespace character; only
non-empty whitespace-only inputs are erased to the empty string. -/
theorem c7_soften_nonempty :
    Part004.soften [] = [] ∧
    ∀ (l : JStr) (c : Char), c ∈ l → isWs c = false → Part004.soften l ≠ [] :=
  ⟨rfl, fun _ _ hc hws => soften_ne_nil hc hws⟩

/-- C7 (witness): a concrete non-whitespace input keeps a non-empty result. -/
theorem c7_soften_nonempty_witness : Part004.soften (js "ばか") ≠ [] :=
  c7_soften_nonempty.2 (js "ばか") 'ば' (by decide) (by decide)

theorem mem_setAdd (st : List JStr) (x a : JStr) :
    a ∈ IndexJs.setAdd st x ↔ a ∈ st ∨ a = x := by
  by_cases h : x ∈ st
  · simp only [IndexJs.setAdd, if_pos h]
    constructor
    · exact fun h1 => Or.inl h1
    · rintro (h1 | h1)
      · exact h1
      · exact h1 ▸ h
  · simp only [IndexJs.setAdd, if_neg h, List.mem_append, List.mem_singleton]

theorem nodup_setAdd (st : List JStr) (x : JStr) (h : st.Nodup) :
    (IndexJs.setAdd st x).Nodup := by
  by_cases hm : x ∈ st
  · simpa [IndexJs.setAdd, hm] using h
  · simp only [IndexJs.setAdd, if_neg hm]
    exact List.Nodup.append h (List.nodup_singleton x)
      (by simpa [List.disjoint_singleton] using hm)

theorem mem_addTokens (st : List JStr) (arr : List JStr) (y : JStr) :
    y ∈ IndexJs.addTokens st arr ↔ y ∈ st ∨ (y ≠ [] ∧ ∃ w ∈ arr, trim w = y) := by
  induction arr generalizing st with
  | nil => simp [IndexJs.addTokens]
  | cons hd tl ih =>
    cases h : (trim hd).isEmpty with
    | true =>
      have htr : trim hd = [] := by simpa using h
      rw [show IndexJs.addTokens st (hd :: tl) = IndexJs.addTokens st tl from by
        simp [IndexJs.addTokens, htr]]
      rw [ih]
      constructor
      · rintro (h1 | ⟨hy, w, hw, he⟩)
        · exact Or.inl h1
        · exact Or.inr ⟨hy, w, List.mem_cons_of_mem _ hw, he⟩
      · rintro (h1 | ⟨hy, w, hw, he⟩)
        · exact Or.inl h1
        · rcases List.mem_cons.1 hw with rfl | hw'
          · exact (hy (he.symm.trans htr)).elim
          · exact Or.inr ⟨hy, w, hw', he⟩
    | false =>
      have htr : trim hd ≠ [] := by simpa using h
      rw [show IndexJs.addTokens st (hd :: tl)
          = IndexJs.addTokens (IndexJs.setAdd st (trim hd)) tl from by
        simp [IndexJs.addTokens, htr]]
      rw [ih, mem_setAdd]
      constructor
      · rintro ((h1 | h1) | ⟨hy, w, hw, he⟩)
        · exact Or.inl h1
        · exact Or.inr ⟨h1 ▸ htr, hd, List.mem_cons_self _ _, h1.symm⟩
        · exact Or.inr ⟨hy, w, List.mem_cons_of_mem _ hw, he⟩
      · rintro (h1 | ⟨hy, w, hw, he⟩)
        · exact Or.inl (Or.inl h1)
        · rcases List.mem_cons.1 hw with rfl | hw'
          · exact Or.inl (Or.inr he.symm)
          · exact Or.inr ⟨hy, w, hw', he⟩

theorem nodup_addTokens (st : List JStr) (arr : List JStr) (h : st.Nodup) :
    (IndexJs.addTokens st arr).Nodup := by
  induction arr generalizing st with
  | nil => simpa [IndexJs.addTokens] using h
  | cons hd tl ih =>
    cases hh : (trim hd).isEmpty with
    | true =>
      have htr : trim hd = [] := by simpa using hh
      rw [show IndexJs.addTokens st (hd :: tl) = IndexJs.addTokens st tl from by
        simp [IndexJs.addTokens, htr]]
      exact ih st h
    | false =>
      have htr : trim hd ≠ [] := by simpa using hh
      rw [show IndexJs.addTokens st (hd :: tl)
          = IndexJs.addTokens (IndexJs.setAdd st (trim hd)) tl from by
        simp [IndexJs.addTokens, htr]]
      exact ih _ (nodup_setAdd _ _ h)

theorem count_eq_one_of_mem_nodup {a : JStr} {l : List JStr} (hnd : l.Nodup)
    (h : a ∈ l) : List.count a l = 1 := by
  induction l with
  | nil => simp at h
  | cons hd tl ih =>
    rw [List.nodup_cons] at hnd
    rcases List.mem_cons.1 h with rfl | htl
    · have h0 : List.count a tl = 0 := List.count_eq_zero.2 hnd.1
      simp [List.count_cons, h0]
    · have hne : hd ≠ a := fun he => hnd.1 (he ▸ htl)
      simp [List.count_cons, ih hnd.2 htl, hne]

/-- C8: PreferenceStore has set semantics: adding the same (already trimmed,
non-empty) token twice leaves exactly one occurrence in the exported like
list; in general `addLike` trims tokens, drops empties, and unions into the
set, preserving the absence of duplicates. -/
theorem c8_preference_set_semantics (st : IndexJs.LearnState) (x : JStr)
    (toks : List JStr) (y : JStr) (hnd : st.like.Nodup) (hx : trim x = x)
    (hxne : x ≠ []) :
    List.count x (IndexJs.exportLearn (IndexJs.addLike (IndexJs.addLike st [x]) [x])).1 = 1 ∧
    (y ∈ (IndexJs.addLike st toks).like ↔
      y ∈ st.like ∨ (y ≠ [] ∧ ∃ w ∈ toks, trim w = y)) ∧
    (IndexJs.addLike st toks).like.Nodup := by
  refine ⟨?_, ?_, nodup_addTokens _ _ hnd⟩
  · have hmem : x ∈ (IndexJs.addLike (IndexJs.addLike st [x]) [x]).like := by
      show x ∈ IndexJs.addTokens (IndexJs.addTokens st.like [x]) [x]
      exact (mem_addTokens _ _ _).2 (Or.inr ⟨hxne, x, List.mem_singleton_self x, hx⟩)
    have hnd2 : (IndexJs.addLike (IndexJs.addLike st [x]) [x]).like.Nodup :=
      nodup_addTokens _ _ (nodup_addTokens _ _ hnd)
    exact count_eq_one_of_mem_nodup hnd2 hmem
  · exact mem_addTokens st.like toks y

/-- C8 (witness): `addLike(["x"]); addLike(["x"])` on the empty store exports
exactly one `"x"`. -/
theorem c8_preference_set_semantics_witness :
    List.count (js "x")
      (IndexJs.exportLearn (IndexJs.addLike (IndexJs.addLike ⟨[], [], false⟩ [js "x"])
        [js "x"])).1 = 1 :=
  (c8_preference_set_semantics ⟨[], [], false⟩ (js "x") [js "x"] (js "x")
    List.nodup_nil (by decide) (by decide)).1

/-- C6: a fully malformed classify request (missing / non-array / empty
`items`) yields an empty result mapping rather than an error, and an item with
a missing id is defaulted to a generated `"h" + random` id rather than
aborting the batch. -/
theorem c6_malformed_input (learn : IndexJs.LearnState) (gen : Nat → JStr)
    (body : IndexJs.AnalyzeBody) (like dis : List JStr) (t : JStr) :
    (body.items = none → IndexJs.analyzeHandler learn gen body = []) ∧
    (body.items = some [] → IndexJs.analyzeHandler learn gen body = []) ∧
    (IndexJs.analyzeHandler learn gen ⟨some [⟨none, some t⟩], like, dis⟩
      = [(js "h" ++ gen 0,
          IndexJs.suggestOf (like ++ learn.like) (dis ++ learn.dislike) t)]) := by
  refine ⟨fun h => ?_, fun h => ?_, ?_⟩
  · simp [IndexJs.analyzeHandler, h, takeJS]
  · simp [IndexJs.analyzeHandler, h, takeJS]
  · have h50 : takeJS (some [(⟨none, some t⟩ : IndexJs.RawItem)]) 50
        = [(⟨none, some t⟩ : IndexJs.RawItem)] := rfl
    simp [IndexJs.analyzeHandler, h50, List.enum, List.enumFrom, IndexJs.resolveId,
      toStrOpt, objInsert]

/-- C6 (witness): concrete instances of all three behaviours. -/
theorem c6_malformed_input_witness :
    IndexJs.analyzeHandler ⟨[], [], false⟩ (fun _ => js "77") ⟨none, [], []⟩ = [] ∧
    IndexJs.analyzeHandler ⟨[], [], false⟩ (fun _ => js "77") ⟨some [], [], []⟩ = [] ∧
    IndexJs.analyzeHandler ⟨[], [], false⟩ (fun _ => js "77")
        ⟨some [⟨none, some (js "hello")⟩], [], []⟩
      = [(js "h77", IndexJs.suggestOf [] [] (js "hello"))] :=
  ⟨(c6_malformed_input ⟨[], [], false⟩ (fun _ => js "77") ⟨none, [], []⟩ [] []
      (js "hello")).1 rfl,
   (c6_malformed_input ⟨[], [], false⟩ (fun _ => js "77") ⟨some [], [], []⟩ [] []
      (js "hello")).2.1 rfl,
   (c6_malformed_input ⟨[], [], false⟩ (fun _ => js "77") ⟨some [], [], []⟩ [] []
      (js "hello")).2.2⟩

theorem analyzeFold_gen_irrelevant (likeAll dislikeAll : List JStr) (g1 g2 : Nat → JStr) :
    ∀ (ps : List (Nat × IndexJs.RawItem)) (out : List (JStr × Suggest)),
      (∀ p ∈ ps, toStrOpt p.2.id ≠ []) →
      ps.foldl (fun out p => objInsert out (IndexJs.resolveId g1 p.1 p.2.id)
        (IndexJs.suggestOf likeAll dislikeAll (toStrOpt p.2.text))) out
      = ps.foldl (fun out p => objInsert out (IndexJs.resolveId g2 p.1 p.2.id)
        (IndexJs.suggestOf likeAll dislikeAll (toStrOpt p.2.text))) out := by
  intro ps
  induction ps with
  | nil => intro out _; rfl
  | cons hd tl ih =>
    intro out h
    have hhd : toStrOpt hd.2.id ≠ [] := h hd (List.mem_cons_self _ _)
    have hres : ∀ g : Nat → JStr, IndexJs.resolveId g hd.1 hd.2.id = toStrOpt hd.2.id := by
      intro g
      simp [IndexJs.resolveId, hhd]
    simp only [List.foldl_cons, hres]
    exact ih _ (fun p hp => h p (List.mem_cons_of_mem _ hp))

/-- C9 (counterexample): classification is not a pure function of (items,
level, preference sets): an item without an id receives a fresh random id
(`"h" + Math.random()…`), so two calls on identical inputs can return
different output mappings (here modelled by two draws of the random source). -/
theorem c9_random_id_cex :
    IndexJs.analyzeHandler ⟨[], [], false⟩ (fun _ => js "aa")
        ⟨some [⟨none, some (js "hi")⟩], [], []⟩
      ≠ IndexJs.analyzeHandler ⟨[], [], false⟩ (fun _ => js "bb")
        ⟨some [⟨none, some (js "hi")⟩], [], []⟩ := by
  decide

/-- C9 (amended): for requests whose (first 50) items all carry a non-empty
id, the classification output depends only on the items and the like/dislike
token sets: it is independent of the random-id source and of any other store
state (such as the dirty flag), and the handler performs no store mutation or
external call. -/
theorem c9_classify_deterministic (L1 L2 : IndexJs.LearnState) (g1 g2 : Nat → JStr)
    (body : IndexJs.AnalyzeBody) (hl : L1.like = L2.like) (hd : L1.dislike = L2.dislike)
    (hid : ∀ it ∈ takeJS body.items 50, toStrOpt it.id ≠ []) :
    IndexJs.analyzeHandler L1 g1 body = IndexJs.analyzeHandler L2 g2 body := by
  unfold IndexJs.analyzeHandler
  rw [hl, hd]
  exact analyzeFold_gen_irrelevant _ _ g1 g2 _ []
    (fun p hp => hid p.2 (List.snd_mem_of_mem_enum hp))

/-- C9 (witness): with ids present, two calls with different random sources
and different dirty flags agree. -/
theorem c9_classify_deterministic_witness :
    IndexJs.analyzeHandler ⟨[], [], true⟩ (fun _ => js "aa")
        ⟨some [⟨some (js "a"), some (js "hi")⟩], [], []⟩
      = IndexJs.analyzeHandler ⟨[], [], false⟩ (fun _ => js "bb")
        ⟨some [⟨some (js "a"), some (js "hi")⟩], [], []⟩ :=
  c9_classify_deterministic ⟨[], [], true⟩ ⟨[], [], false⟩ _ _ _ rfl rfl (by decide)

theorem map_enumFrom_snd_comp {β γ : Type} (f : β → γ) :
    ∀ (n : Nat) (l : List β), (List.enumFrom n l).map (fun p => f p.2) = l.map f := by
  intro n l
  induction l generalizing n with
  | nil => rfl
  | cons hd tl ih => simp [List.enumFrom, ih]

theorem itemResult_ne_nil (key : Bool) (oracle : Nat → Part004.AIRes) (style : JStr)
    (i : Nat) {text : JStr} (h : trim text ≠ []) :
    Part004.itemResult key oracle style i text ≠ [] := by
  have hex : ∃ c ∈ text, isWs c = false := by
    by_contra hall
    push_neg at hall
    refine h ((trim_eq_nil_iff text).2 (fun c hc => ?_))
    cases hw : isWs c with
    | true => rfl
    | false => exact absurd hw (hall c hc)
  unfold Part004.itemResult
  cases hcond : ((Part004.safeChat key oracle i text).ok
      && !(Part004.safeChat key oracle i text).text.isEmpty
      && !(trim (Part004.safeChat key oracle i text).text).isEmpty) with
  | true =>
    have h' := hcond
    simp only [Bool.and_eq_true] at h'
    have hc3 : (trim (Part004.safeChat key oracle i text).text).isEmpty = false := by
      simpa using h'.2
    simp only [hcond, if_true]
    simpa using hc3
  | false =>
    simp only [hcond, Bool.false_eq_true, if_false]
    obtain ⟨c, hc, hw⟩ := hex
    unfold Part004.fallback
    cases hstyle : isSub (js "american_joke") style with
    | true =>
      simp only [hstyle, if_true]
      intro heq
      exact absurd (List.append_eq_nil.1 heq).2 (by decide)
    | false =>
      simp only [hstyle, Bool.false_eq_true, if_false]
      exact soften_ne_nil hc hw

/-- C2 (counterexample): the claim fails as stated: the non-empty input `" "`
is mapped to the empty string by the part_004 `/rewrite` fallback (soften
trims whitespace-only text away) when the external service is unavailable and
the style is not a joke style. -/
theorem c2_whitespace_cex :
    js " " ≠ [] ∧
    Part004.rewriteHandler false (fun _ => ⟨false, []⟩) (js "polish")
        [⟨js "a", js " "⟩]
      = [(js "a", [])] := by
  decide

/-- C2 (amended): in the part_004 `/rewrite` handler every input id appears in
the output exactly once (the keys are exactly the item ids, without
duplicates), and — for batches with distinct ids, as the id contract requires
— every item whose text has non-empty trimmed content receives a non-empty
rewritten text, whatever the external call does. -/
theorem c2_rewrite_total (key : Bool) (oracle : Nat → Part004.AIRes) (styleIn : JStr)
    (items : List Item) :
    ((jsKeys (Part004.rewriteHandler key oracle styleIn items)).Nodup ∧
      ∀ a, a ∈ jsKeys (Part004.rewriteHandler key oracle styleIn items) ↔
        a ∈ items.map Item.id) ∧
    ((items.map Item.id).Nodup →
      ∀ it ∈ items, trim it.text ≠ [] →
        lookupD (Part004.rewriteHandler key oracle styleIn items) it.id [] ≠ []) := by
  have hfold : Part004.rewriteHandler key oracle styleIn items
      = foldIns ((items.enum).map (fun p => (p.2.id,
          Part004.itemResult key oracle (styleIn.take 200) p.1 p.2.text))) [] := by
    unfold Part004.rewriteHandler
    exact foldl_objInsert_eq_foldIns _ _ _ _
  have hkeys : ((items.enum).map (fun p => (p.2.id,
      Part004.itemResult key oracle (styleIn.take 200) p.1 p.2.text))).map Prod.fst
      = items.map Item.id := by
    rw [List.map_map]
    exact map_enumFrom_snd_comp Item.id 0 items
  refine ⟨⟨?_, fun a => ?_⟩, fun hnod it hit htr => ?_⟩
  · rw [hfold]
    exact nodup_jsKeys_foldIns _ _ (by simp [jsKeys])
  · rw [hfold, mem_jsKeys_foldIns, hkeys]
    simp [jsKeys]
  · obtain ⟨i, hi⟩ := mem_enumFrom_of_mem hit 0
    have hpair : (it.id, Part004.itemResult key oracle (styleIn.take 200) i it.text)
        ∈ (items.enum).map (fun p => (p.2.id,
          Part004.itemResult key oracle (styleIn.take 200) p.1 p.2.text)) :=
      List.mem_map.2 ⟨(i, it), hi, rfl⟩
    have hndps := hkeys ▸ hnod
    rw [hfold, lookupD_foldIns_mem _ _ _ _ _ hndps hpair]
    exact itemResult_ne_nil key oracle (styleIn.take 200) i htr

/-- C2 (witness): a one-item batch with non-blank text gets one entry with
non-empty content even with the service unconfigured. -/
theorem c2_rewrite_total_witness :
    lookupD (Part004.rewriteHandler false (fun _ => ⟨false, []⟩) (js "polish")
      [⟨js "a", js "hello"⟩]) (js "a") [] ≠ [] :=
  (c2_rewrite_total false (fun _ => ⟨false, []⟩) (js "polish")
    [⟨js "a", js "hello"⟩]).2 (by decide) ⟨js "a", js "hello"⟩ (by decide) (by decide)

theorem loopRw_false_success (oracle : Nat → Part002.CallOut) :
    ∀ (ps : List (Nat × Item)) (out : List (JStr × JStr)), ∃ res,
      Part002.loopRw false oracle ps out = .success res := by
  intro ps
  induction ps with
  | nil => intro out; exact ⟨out, rfl⟩
  | cons hd tl ih =>
    intro out
    rcases ih (objInsert out hd.2.id
        (if !hd.2.text.isEmpty && !(trim hd.2.text).isEmpty then trim hd.2.text
         else hd.2.text)) with ⟨res, hres⟩
    exact ⟨res, by simpa [Part002.loopRw] using hres⟩

/-- C3 (counterexample): in the part_002 variant an external HTTP/network
failure *is* surfaced to the caller as an error response: with a key
configured, a thrown `callOpenAIChat` aborts the batch into the 500 branch. -/
theorem c3_http_error_cex :
    Part002.rewriteHandler true (fun _ => .fail (js "OpenAI HTTP 500"))
        [⟨js "a", js "hello"⟩]
      = .err500 (js "OpenAI HTTP 500") := by
  decide

/-- C3 (amended): the unconfigured-service case never errors in the part_002
handler (it falls back to the original text and responds successfully), and in
the part_004 handler any item whose external call fails — including every item
when the service is unconfigured — still receives content, namely the local
fallback transform of its original text; no error response is produced there.
Only part_002/part_001/part_003 with a configured key surface a hard 500. -/
theorem c3_no_error_surfaced :
    (∀ (oracle : Nat → Part002.CallOut) (items : List Item), ∃ res,
      Part002.rewriteHandler false oracle items = .success res) ∧
    (∀ (key : Bool) (oracle : Nat → Part004.AIRes) (styleIn : JStr) (items : List Item),
      (items.map Item.id).Nodup →
      ∀ p ∈ items.enum, (Part004.safeChat key oracle p.1 p.2.text).ok = false →
        lookupD (Part004.rewriteHandler key oracle styleIn items) p.2.id []
          = Part004.fallback (styleIn.take 200) p.2.text) := by
  constructor
  · intro oracle items
    exact loopRw_false_success oracle items.enum []
  · intro key oracle styleIn items hnod p hp hok
    have hfold : Part004.rewriteHandler key oracle styleIn items
        = foldIns ((items.enum).map (fun q => (q.2.id,
            Part004.itemResult key oracle (styleIn.take 200) q.1 q.2.text))) [] := by
      unfold Part004.rewriteHandler
      exact foldl_objInsert_eq_foldIns _ _ _ _
    have hkeys : ((items.enum).map (fun q => (q.2.id,
        Part004.itemResult key oracle (styleIn.take 200) q.1 q.2.text))).map Prod.fst
        = items.map Item.id := by
      rw [List.map_map]
      exact map_enumFrom_snd_comp Item.id 0 items
    have hpair : (p.2.id, Part004.itemResult key oracle (styleIn.take 200) p.1 p.2.text)
        ∈ (items.enum).map (fun q => (q.2.id,
          Part004.itemResult key oracle (styleIn.take 200) q.1 q.2.text)) :=
      List.mem_map.2 ⟨p, hp, rfl⟩
    rw [hfold, lookupD_foldIns_mem _ _ _ _ _ (hkeys ▸ hnod) hpair]
    simp [Part004.itemResult, hok]

/-- C3 (witness): with the service unconfigured, the part_004 handler serves
the item from the local fallback transform. -/
theorem c3_no_error_surfaced_witness :
    lookupD (Part004.rewriteHandler false (fun _ => ⟨true, js "ignored"⟩) (js "polish")
        [⟨js "a", js "hello"⟩]) (js "a") []
      = Part004.fallback ((js "polish").take 200) (js "hello") :=
  c3_no_error_surfaced.2 false (fun _ => ⟨true, js "ignored"⟩) (js "polish")
    [⟨js "a", js "hello"⟩] (by decide) (0, ⟨js "a", js "hello"⟩) (by decide) (by decide)

theorem colon_mem_mapPart (it : Item) (hlen : it.id.length ≤ 3999) :
    ':' ∈ IndexJs.mapPart it := by
  unfold IndexJs.mapPart
  rw [List.append_assoc, List.take_append_eq_append_take]
  refine List.mem_append_right _ ?_
  obtain ⟨k, hk⟩ : ∃ k, 4000 - it.id.length = k + 1 :=
    ⟨4000 - it.id.length - 1, by omega⟩
  rw [hk, show js "::: " ++ it.text = ':' :: (js ":: " ++ it.text) from rfl,
    List.take_succ_cons]
  exact List.mem_cons_self _ _

theorem colon_mem_joinedOf (hd : Item) (tl : List Item) (hlen : hd.id.length ≤ 3999) :
    ':' ∈ IndexJs.joinedOf (hd :: tl) := by
  obtain ⟨X, hX⟩ : ∃ X, joinSep (js "\n\n") ((hd :: tl).map IndexJs.mapPart)
      = IndexJs.mapPart hd ++ X := by
    cases tl with
    | nil => exact ⟨[], by simp [joinSep]⟩
    | cons b bs =>
      exact ⟨js "\n\n" ++ joinSep (js "\n\n") ((b :: bs).map IndexJs.mapPart),
        by simp [joinSep, List.append_assoc]⟩
  have hle : (IndexJs.mapPart hd).length ≤ 16000 := by
    unfold IndexJs.mapPart
    rw [List.length_take]
    exact le_trans (Nat.min_le_left _ _) (by omega)
  unfold IndexJs.joinedOf
  rw [hX, List.take_append_eq_append_take, List.take_of_length_le hle]
  exact List.mem_append_left _ (colon_mem_mapPart hd hlen)

theorem keys_foldIns_map_id {α : Type} (g : Item → α) (items : List Item) (a : JStr) :
    (jsKeys (items.foldl (fun o it => objInsert o it.id (g it)) [])).Nodup ∧
    (a ∈ jsKeys (items.foldl (fun o it => objInsert o it.id (g it)) []) ↔
      a ∈ items.map Item.id) := by
  have hfold : items.foldl (fun o it => objInsert o it.id (g it)) []
      = foldIns (items.map (fun it => (it.id, g it))) [] :=
    foldl_objInsert_eq_foldIns _ _ _ _
  constructor
  · rw [hfold]
    exact nodup_jsKeys_foldIns _ _ (by simp [jsKeys])
  · rw [hfold, mem_jsKeys_foldIns]
    simp [jsKeys, List.map_map, Function.comp]

theorem rwResults_keys (call : IndexJs.JSCall) (items : List Item) (a : JStr) :
    (jsKeys (IndexJs.rwResults call items)).Nodup ∧
    (a ∈ jsKeys (IndexJs.rwResults call items) ↔ a ∈ items.map Item.id) := by
  cases call with
  | threw m => exact keys_foldIns_map_id (fun it => it.text) items a
  | content o =>
    cases o with
    | none => exact keys_foldIns_map_id (fun it => it.text) items a
    | some parsed =>
      exact keys_foldIns_map_id
        (fun it => if (lookupD parsed it.id []).isEmpty then it.text
                   else lookupD parsed it.id []) items a

theorem resolveId_map_of_ids (gen : Nat → JStr) :
    ∀ (n : Nat) (l : List IndexJs.RawItem),
      (∀ it ∈ l, toStrOpt it.id ≠ []) →
      (List.enumFrom n l).map (fun p => IndexJs.resolveId gen p.1 p.2.id)
        = l.map (fun it => toStrOpt it.id) := by
  intro n l
  induction l generalizing n with
  | nil => intro _; rfl
  | cons hd tl ih =>
    intro h
    have hhd : toStrOpt hd.id ≠ [] := h hd (List.mem_cons_self _ _)
    simp only [List.enumFrom, List.map_cons]
    rw [ih (n + 1) (fun it hit => h it (List.mem_cons_of_mem _ hit))]
    congr 1
    simp [IndexJs.resolveId, hhd]

/-- C10 (amended): the persistent-variant endpoints truncate their input: the
classify output has exactly the (non-empty) ids of the first 50 items as keys,
each exactly once, and the rewrite output exactly the ids of the first 40
items; the joined rewrite prompt is capped at 16000 characters — but that
character cap only limits what is forwarded to the external service, it does
not remove output entries. -/
theorem c10_truncation (learn : IndexJs.LearnState) (gen : Nat → JStr)
    (body : IndexJs.AnalyzeBody) (call : IndexJs.JSCall) (itemsIn : Option (List Item))
    (a : JStr)
    (hid : ∀ it ∈ takeJS body.items 50, toStrOpt it.id ≠ [])
    (hshort : ∀ it ∈ takeJS itemsIn 40, it.id.length ≤ 3999) :
    (a ∈ jsKeys (IndexJs.analyzeHandler learn gen body) ↔
      a ∈ (takeJS body.items 50).map (fun it => toStrOpt it.id)) ∧
    (jsKeys (IndexJs.analyzeHandler learn gen body)).Nodup ∧
    (a ∈ jsKeys (IndexJs.rewriteHandler call itemsIn) ↔
      a ∈ (takeJS itemsIn 40).map Item.id) ∧
    (jsKeys (IndexJs.rewriteHandler call itemsIn)).Nodup ∧
    (IndexJs.joinedOf (takeJS itemsIn 40)).length ≤ 16000 := by
  have hfold : IndexJs.analyzeHandler learn gen body
      = foldIns (((takeJS body.items 50).enum).map (fun p =>
          (IndexJs.resolveId gen p.1 p.2.id,
           IndexJs.suggestOf (body.like_tokens ++ learn.like)
             (body.dislike_tokens ++ learn.dislike) (toStrOpt p.2.text)))) [] := by
    unfold IndexJs.analyzeHandler
    exact foldl_objInsert_eq_foldIns _ _ _ _
  have hkeys : (((takeJS body.items 50).enum).map (fun p =>
      (IndexJs.resolveId gen p.1 p.2.id,
       IndexJs.suggestOf (body.like_tokens ++ learn.like)
         (body.dislike_tokens ++ learn.dislike) (toStrOpt p.2.text)))).map Prod.fst
      = (takeJS body.items 50).map (fun it => toStrOpt it.id) := by
    rw [List.map_map]
    exact resolveId_map_of_ids gen 0 _ hid
  have hrw : (jsKeys (IndexJs.rewriteHandler call itemsIn)).Nodup ∧
      (a ∈ jsKeys (IndexJs.rewriteHandler call itemsIn) ↔
        a ∈ (takeJS itemsIn 40).map Item.id) := by
    cases hts : takeJS itemsIn 40 with
    | nil =>
      have hnil : IndexJs.rewriteHandler call itemsIn = [] := by
        unfold IndexJs.rewriteHandler
        rw [hts]
        simp [IndexJs.joinedOf, joinSep, trim]
      rw [hnil]
      simp [jsKeys]
    | cons hd tl =>
      have hcolon : ':' ∈ IndexJs.joinedOf (takeJS itemsIn 40) := by
        rw [hts]
        exact colon_mem_joinedOf hd tl
          (hshort hd (by rw [hts]; exact List.mem_cons_self hd tl))
      have hEmp : (trim (IndexJs.joinedOf (takeJS itemsIn 40))).isEmpty = false := by
        simpa using trim_ne_nil hcolon (by decide)
      have hh : IndexJs.rewriteHandler call itemsIn
          = IndexJs.rwResults call (takeJS itemsIn 40) := by
        unfold IndexJs.rewriteHandler
        simp [hEmp]
      rw [hh, hts]
      exact ⟨(rwResults_keys call _ a).1, (rwResults_keys call _ a).2⟩
  refine ⟨?_, ?_, hrw.2, hrw.1, ?_⟩
  · rw [hfold, mem_jsKeys_foldIns, hkeys]
    simp [jsKeys]
  · rw [hfold]
    exact nodup_jsKeys_foldIns _ _ (by simp [jsKeys])
  · unfold IndexJs.joinedOf
    rw [List.length_take]
    exact Nat.min_le_left _ _

/-- C10 (witness): a well-formed one-item classify request and one-item
rewrite request instantiate the truncation description. -/
theorem c10_truncation_witness :
    ((js "a") ∈ jsKeys (IndexJs.analyzeHandler ⟨[], [], false⟩ (fun _ => js "0")
        ⟨some [⟨some (js "a"), some (js "x")⟩], [], []⟩) ↔
      (js "a") ∈ (takeJS (some [(⟨some (js "a"), some (js "x")⟩ : IndexJs.RawItem)]) 50).map
        (fun it => toStrOpt it.id)) ∧
    (jsKeys (IndexJs.analyzeHandler ⟨[], [], false⟩ (fun _ => js "0")
        ⟨some [⟨some (js "a"), some (js "x")⟩], [], []⟩)).Nodup ∧
    ((js "a") ∈ jsKeys (IndexJs.rewriteHandler (.content none) (some [⟨js "b", js "y"⟩])) ↔
      (js "a") ∈ (takeJS (some [(⟨js "b", js "y"⟩ : Item)]) 40).map Item.id) ∧
    (jsKeys (IndexJs.rewriteHandler (.content none) (some [⟨js "b", js "y"⟩]))).Nodup ∧
    (IndexJs.joinedOf (takeJS (some [(⟨js "b", js "y"⟩ : Item)]) 40)).length ≤ 16000 :=
  c10_truncation ⟨[], [], false⟩ (fun _ => js "0")
    ⟨some [⟨some (js "a"), some (js "x")⟩], [], []⟩ (.content none)
    (some [⟨js "b", js "y"⟩]) (js "a") (by decide) (by decide)

theorem mapPart_len_big {id : JStr} (h : id.length = 1) :
    (IndexJs.mapPart ⟨id, bigText⟩).length = 4000 := by
  unfold IndexJs.mapPart
  rw [List.length_take, List.length_append, List.length_append, h,
    show (js "::: ").length = 4 from rfl,
    show bigText.length = 4000 from List.length_replicate 4000 'x']
  omega

theorem mem_mapPart_big {id : JStr} {x : Char} (hx : x ∈ IndexJs.mapPart ⟨id, bigText⟩) :
    x ∈ id ∨ x ∈ js "::: " ∨ x = 'x' := by
  have h1 := List.take_subset _ _ hx
  rcases List.mem_append.1 h1 with h2 | h2
  · rcases List.mem_append.1 h2 with h3 | h3
    · exact Or.inl h3
    · exact Or.inr (Or.inl h3)
  · exact Or.inr (Or.inr (List.eq_of_mem_replicate (n := 4000) (a := 'x') h2))

/-- C10 (counterexample): the 16000-character cap does not deprive items of
their output entries.  For `capItems` the joined prompt would be 16014
characters, so it is cut to exactly 16000 and the fifth item's part — its id
`"e"` included — does not reach the external service at all; yet the rewrite
response still maps `"e"` to its text, contradicting "ids of items beyond
these caps receive no entry in the output mapping". -/
theorem c10_char_cap_cex :
    16000 < (joinSep (js "\n\n") (capItems.map IndexJs.mapPart)).length ∧
    (IndexJs.joinedOf capItems).length = 16000 ∧
    'e' ∉ IndexJs.joinedOf capItems ∧
    lookupD (IndexJs.rewriteHandler (.threw []) (some capItems)) (js "e") [] = js "t" := by
  have hA : (IndexJs.mapPart ⟨js "a", bigText⟩).length = 4000 := mapPart_len_big rfl
  have hB : (IndexJs.mapPart ⟨js "b", bigText⟩).length = 4000 := mapPart_len_big rfl
  have hC : (IndexJs.mapPart ⟨js "c", bigText⟩).length = 4000 := mapPart_len_big rfl
  have hD : (IndexJs.mapPart ⟨js "d", bigText⟩).length = 4000 := mapPart_len_big rfl
  have hJ : joinSep (js "\n\n") (capItems.map IndexJs.mapPart)
      = (IndexJs.mapPart ⟨js "a", bigText⟩ ++ (js "\n\n" ++ (IndexJs.mapPart ⟨js "b", bigText⟩
          ++ (js "\n\n" ++ (IndexJs.mapPart ⟨js "c", bigText⟩ ++ (js "\n\n"
          ++ IndexJs.mapPart ⟨js "d", bigText⟩))))))
        ++ (js "\n\n" ++ IndexJs.mapPart ⟨js "e", js "t"⟩) := by
    simp [capItems, joinSep, List.append_assoc]
  have hPlen : (IndexJs.mapPart ⟨js "a", bigText⟩ ++ (js "\n\n"
      ++ (IndexJs.mapPart ⟨js "b", bigText⟩ ++ (js "\n\n"
      ++ (IndexJs.mapPart ⟨js "c", bigText⟩ ++ (js "\n\n"
      ++ IndexJs.mapPart ⟨js "d", bigText⟩)))))).length = 16006 := by
    simp [List.length_append, hA, hB, hC, hD, show (js "\n\n").length = 2 from rfl]
  have hjoined : IndexJs.joinedOf capItems
      = (IndexJs.mapPart ⟨js "a", bigText⟩ ++ (js "\n\n"
          ++ (IndexJs.mapPart ⟨js "b", bigText⟩ ++ (js "\n\n"
          ++ (IndexJs.mapPart ⟨js "c", bigText⟩ ++ (js "\n\n"
          ++ IndexJs.mapPart ⟨js "d", bigText⟩)))))).take 16000 := by
    unfold IndexJs.joinedOf
    rw [hJ, List.take_append_eq_append_take, hPlen]
    simp
  have hnotmem : 'e' ∉ IndexJs.joinedOf capItems := by
    rw [hjoined]
    intro hmem
    have hP := List.take_subset _ _ hmem
    rcases List.mem_append.1 hP with h1 | h1
    · rcases mem_mapPart_big h1 with h' | h' | h'
      · exact absurd h' (by decide)
      · exact absurd h' (by decide)
      · exact absurd h' (by decide)
    rcases List.mem_append.1 h1 with h2 | h2
    · exact absurd h2 (by decide)
    rcases List.mem_append.1 h2 with h3 | h3
    · rcases mem_mapPart_big h3 with h' | h' | h'
      · exact absurd h' (by decide)
      · exact absurd h' (by decide)
      · exact absurd h' (by decide)
    rcases List.mem_append.1 h3 with h4 | h4
    · exact absurd h4 (by decide)
    rcases List.mem_append.1 h4 with h5 | h5
    · rcases mem_mapPart_big h5 with h' | h' | h'
      · exact absurd h' (by decide)
      · exact absurd h' (by decide)
      · exact absurd h' (by decide)
    rcases List.mem_append.1 h5 with h6 | h6
    · exact absurd h6 (by decide)
    · rcases mem_mapPart_big h6 with h' | h' | h'
      · exact absurd h' (by decide)
      · exact absurd h' (by decide)
      · exact absurd h' (by decide)
  refine ⟨?_, ?_, hnotmem, ?_⟩
  · rw [hJ, List.length_append, hPlen,
      show (js "\n\n" ++ IndexJs.mapPart ⟨js "e", js "t"⟩).length = 8 from by decide]
    omega
  · rw [hjoined, List.length_take, hPlen]
    omega
  · have htake : takeJS (some capItems) 40 = capItems := by
      show capItems.take 40 = capItems
      exact List.take_of_length_le (by simp [capItems])
    have hcolon : ':' ∈ IndexJs.joinedOf capItems :=
      colon_mem_joinedOf ⟨js "a", bigText⟩
        [⟨js "b", bigText⟩, ⟨js "c", bigText⟩, ⟨js "d", bigText⟩, ⟨js "e", js "t"⟩]
        (by decide)
    have hEmp : (trim (IndexJs.joinedOf capItems)).isEmpty = false := by
      simpa using trim_ne_nil hcolon (by decide)
    have hh : IndexJs.rewriteHandler (.threw []) (some capItems)
        = IndexJs.rwResults (.threw []) capItems := by
      unfold IndexJs.rewriteHandler
      rw [htake]
      simp [hEmp]
    have hfold : IndexJs.rwResults (.threw []) capItems
        = foldIns (capItems.map (fun it => (it.id, it.text))) [] := by
      unfold IndexJs.rwResults
      exact foldl_objInsert_eq_foldIns _ _ _ _
    rw [hh, hfold]
    refine lookupD_foldIns_mem _ _ _ _ _ ?_ ?_
    · decide
    · decide
